import Mathlib

/-!
# Verification of the baby-tracker storage core

Shallow embedding of `miniprogram/utils/storage.ts`: the event record store
(`aggregateDaily`, `linkSleepAndWake`, `deleteEvent`), the profile registry
(`listBabies`, `updateLocalBaby`, `deleteBabyById`, `getCurrentBabyId`,
`syncBabies`) and the sharing protocol (`createInvitation`,
`confirmJoinFamily`).

Modelling conventions:
* The WeChat local key-value store is a `LocalState` record (the `babies`
  list and the persisted current-selection pointer; the empty string models
  an unset pointer, which is what `wx.getStorageSync` returns).
* The remote document store is a `CloudState` record of plain lists, one per
  collection; `where`-queries become `List.filter`, `doc(id).get()` becomes
  `List.find?` on the document key, `add` appends.  The model assumes the
  remote calls themselves succeed (the error paths of the source throw
  before any of the state modelled here is touched).
* JavaScript numbers are modelled as `Int` (all quantities in the source are
  integral); `Math.round((a-b)/1000/60)` is exact rational arithmetic in the
  source's value range and is modelled by `jsRoundMin`.
* Dynamically-typed duration fields are modelled by `JsVal`: either a number
  or `bad`, a truthy non-numeric value on which `Number(...)` yields `NaN`.
-/

set_option linter.unusedVariables false
set_option linter.unnecessarySeqFocus false
set_option linter.unreachableTactic false
set_option linter.unusedTactic false

namespace BabyTracker

/-! ## JavaScript value helpers -/

/-- A dynamically typed value sitting in a numeric field: either an actual
number, or (`bad`) a truthy non-numeric value — e.g. a non-numeric string —
for which `Number(v)` produces `NaN`. -/
inductive JsVal where
  | num (n : Int)
  | bad
deriving DecidableEq

/-- JavaScript truthiness of a `JsVal` (`0` is falsy). -/
def jsTruthy : JsVal → Bool
  | .num n => n != 0
  | .bad => true

/-- `Number(v)`: `none` models `NaN`. -/
def jsToNum : JsVal → Option Int
  | .num n => some n
  | .bad => none

/-- `v || d` where `v` is an optional dynamic value (`none` = `undefined`). -/
def jsOrVal (o : Option JsVal) (d : JsVal) : JsVal :=
  match o with
  | some v => if jsTruthy v then v else d
  | none => d

/-- `s || d` for an optional string (`""` is falsy, `none` = `undefined`). -/
def jsOrS (o : Option String) (d : String) : String :=
  match o with
  | some s => if s = "" then d else s
  | none => d

/-- One-sided whitespace strip used by `jsTrim`. -/
def stripWs (l : List Char) : List Char :=
  l.dropWhile Char.isWhitespace

/-- Model of JavaScript `String.prototype.trim`: drop whitespace from both
ends of the character sequence. -/
def jsTrim (s : String) : String :=
  ⟨((stripWs s.data).reverse.dropWhile Char.isWhitespace).reverse⟩

/-- `Math.round(d / 1000 / 60)` for a millisecond difference `d ≥ 0`
(rounds half away from zero upward, exactly as JS `Math.round` on the
nonnegative values this is applied to). -/
def jsRoundMin (d : Int) : Int :=
  (2 * d + 60000) / 120000

/-! ## Event records (`EventRecord`, `StatsSummary`) -/

/-- `EventType` from storage.ts. -/
inductive EventType where
  | feed | drink | pee | poop | sleep | wake
deriving DecidableEq

/-- `EventRecord` from storage.ts.  `durationLegacy` models the untyped
legacy `duration` property that `aggregateDaily` reads via `(e as any)`. -/
structure EventRecord where
  _id : Option String := none
  babyId : String
  type : EventType
  timestamp : Int
  quantity : Option Int := none
  durationMinutes : Option JsVal := none
  durationLegacy : Option JsVal := none
  notes : Option String := none
deriving DecidableEq

/-- `StatsSummary` from storage.ts. -/
structure StatsSummary where
  dateKey : String
  feedCount : Int
  feedMl : Int
  drinkCount : Int
  drinkMl : Int
  peeCount : Int
  poopCount : Int
  sleepSessions : Int
  sleepMinutes : Int
deriving DecidableEq

/-- The all-zero summary `aggregateDaily` starts from. -/
def initSummary (dateKey : String) : StatsSummary :=
  ⟨dateKey, 0, 0, 0, 0, 0, 0, 0, 0⟩

/-- `const minutes = Number(e.durationMinutes || (e as any).duration || 0);
sum.sleepMinutes += isNaN(minutes) ? 0 : minutes` — the minutes one sleep
event contributes. -/
def effSleepMinutes (e : EventRecord) : Int :=
  match jsToNum (jsOrVal e.durationMinutes (jsOrVal e.durationLegacy (.num 0))) with
  | some n => n
  | none => 0

/-- The body of the `events.forEach` loop of `aggregateDaily`.
`e.quantity || 0` coincides with `Option.getD 0` (a present `0` is falsy but
`||` then also yields `0`). -/
def aggregateStep (sum : StatsSummary) (e : EventRecord) : StatsSummary :=
  match e.type with
  | .feed => { sum with feedCount := sum.feedCount + 1, feedMl := sum.feedMl + e.quantity.getD 0 }
  | .drink => { sum with drinkCount := sum.drinkCount + 1, drinkMl := sum.drinkMl + e.quantity.getD 0 }
  | .pee => { sum with peeCount := sum.peeCount + 1 }
  | .poop => { sum with poopCount := sum.poopCount + 1 }
  | .sleep => { sum with sleepSessions := sum.sleepSessions + 1, sleepMinutes := sum.sleepMinutes + effSleepMinutes e }
  | .wake => sum

/-- `aggregateDaily(events, dateKey)` from storage.ts. -/
def aggregateDaily (events : List EventRecord) (dateKey : String) : StatsSummary :=
  events.foldl aggregateStep (initSummary dateKey)

/-- Field-wise sum of two summaries, keeping the first `dateKey`. -/
def addSummary (s t : StatsSummary) : StatsSummary :=
  ⟨s.dateKey, s.feedCount + t.feedCount, s.feedMl + t.feedMl,
    s.drinkCount + t.drinkCount, s.drinkMl + t.drinkMl,
    s.peeCount + t.peeCount, s.poopCount + t.poopCount,
    s.sleepSessions + t.sleepSessions, s.sleepMinutes + t.sleepMinutes⟩

/-! ## Event deletion (`deleteEvent`) -/

/-- `list[idx] = merged` after a `findIndex`: replace the first element
satisfying `f` by its image under `g`. -/
def replaceFirst {α : Type} (f : α → Bool) (g : α → α) : List α → List α
  | [] => []
  | a :: l => if f a then g a :: l else a :: replaceFirst f g l

/-- Local-cache effect of `deleteEvent(babyId, _id)` once the remote delete
has succeeded (on remote failure the source throws before reaching this
code).  The source filters the cache by `e._id !== _id`, writes the
filtered list back only when its length changed, and then calls
`notifyListeners(babyId)` unconditionally; the returned boolean records
whether that notification call was made. -/
def deleteEvent (babyId targetId : String) (cache : List EventRecord) :
    List EventRecord × Bool :=
  let filtered := cache.filter (fun e => e._id != some targetId)
  ((if filtered.length ≠ cache.length then filtered else cache), true)

/-! ## Sleep/wake pairing (`linkSleepAndWake`, `updateEvent`) -/

/-- The query/filter predicate of `linkSleepAndWake`: same subject, type
`sleep`, `oneDayAgo ≤ timestamp < now`. -/
def inSleepWindow (babyId : String) (lo hi : Int) (e : EventRecord) : Bool :=
  e.babyId == babyId && e.type == EventType.sleep &&
    decide (lo ≤ e.timestamp) && decide (e.timestamp < hi)

/-- `orderBy('timestamp','desc').limit(1)`: an element of maximal timestamp
(ties resolved to the earliest listed; the store leaves tie order
unspecified). -/
def mostRecent : List EventRecord → Option EventRecord
  | [] => none
  | e :: l =>
    match mostRecent l with
    | none => some e
    | some m => if e.timestamp < m.timestamp then some m else some e

/-- The local-cache fallback search of `linkSleepAndWake`: `list.find(...)`
first; the source's second attempt (filter, sort descending, take `[0]`)
only runs when `find` returned nothing, in which case the filtered list is
empty too — it is modelled by the same maximal-element selection. -/
def findLastSleepLocal (list : List EventRecord) (babyId : String) (lo hi : Int) :
    Option EventRecord :=
  match list.find? (inSleepWindow babyId lo hi) with
  | some e => some e
  | none => mostRecent (list.filter (inSleepWindow babyId lo hi))

/-- `!lastSleep.durationMinutes || lastSleep.durationMinutes === 0`: an
absent or numerically zero duration counts as unpaired; a truthy
non-numeric value counts as already set. -/
def sleepUnpaired (e : EventRecord) : Bool :=
  match e.durationMinutes with
  | none => true
  | some (.num n) => n == 0
  | some .bad => false

/-- The field patch `updateEvent` applies: type, timestamp, quantity,
durationMinutes and notes are overwritten, nothing else. -/
def patchEvent (old rec : EventRecord) : EventRecord :=
  { old with
    type := rec.type
    timestamp := rec.timestamp
    quantity := rec.quantity
    durationMinutes := rec.durationMinutes
    notes := rec.notes }

/-- `updateEvent(rec)`: a record without `_id` is returned unchanged;
otherwise the remote doc with that id is updated and the same five fields
are merged into the first matching local-cache entry. -/
def updateEvent (rec : EventRecord) (cloud localCache : List EventRecord) :
    List EventRecord × List EventRecord :=
  match rec._id with
  | none => (cloud, localCache)
  | some rid =>
    (cloud.map (fun e => if e._id == some rid then patchEvent e rec else e),
     replaceFirst (fun e => e._id == some rid) (fun e => patchEvent e rec) localCache)

/-- `linkSleepAndWake(wakeRecord)` over the remote events collection
(`cloud`) and the local events cache, with the remote store reachable.  The
remote query picks the most recent in-window sleep; only when it yields
nothing is the local cache consulted.  The selected record is updated only
if its duration is unset/zero and the rounded difference is positive. -/
def linkSleepAndWake (w : EventRecord) (cloud localCache : List EventRecord) :
    List EventRecord × List EventRecord :=
  if w.type ≠ EventType.wake then (cloud, localCache)
  else
    let now := w.timestamp
    let oneDayAgo := now - 24 * 60 * 60 * 1000
    let lastSleep :=
      match mostRecent (cloud.filter (inSleepWindow w.babyId oneDayAgo now)) with
      | some e => some e
      | none => findLastSleepLocal localCache w.babyId oneDayAgo now
    match lastSleep with
    | none => (cloud, localCache)
    | some s =>
      if sleepUnpaired s then
        let diff := jsRoundMin (now - s.timestamp)
        if 0 < diff then
          updateEvent { s with durationMinutes := some (.num diff) } cloud localCache
        else (cloud, localCache)
      else (cloud, localCache)

/-! ## Concrete states used by counterexamples and witnesses -/

/-- A sleep event whose duration is already set (paired). -/
def cexSleepPaired : EventRecord :=
  { _id := some "s1"
    babyId := "b1"
    type := EventType.sleep
    timestamp := 3600000
    durationMinutes := some (JsVal.num 45) }

/-- An earlier sleep event of the same subject with no duration. -/
def cexSleepUnpaired : EventRecord :=
  { _id := some "s0", babyId := "b1", type := EventType.sleep, timestamp := 0 }

/-- A wake event 45 minutes after `cexSleepPaired`. -/
def cexWake : EventRecord :=
  { _id := some "w1", babyId := "b1", type := EventType.wake, timestamp := 6300000 }

/-- Remote events store holding the paired and the unpaired sleep. -/
def cexCloudEvents : List EventRecord := [cexSleepPaired, cexSleepUnpaired]

/-- A fresh sleep event with no duration, for the pairing witness. -/
def witSleep : EventRecord :=
  { _id := some "s2", babyId := "b2", type := EventType.sleep, timestamp := 0 }

/-- A wake event 45 minutes after `witSleep`. -/
def witWake : EventRecord :=
  { _id := some "w2", babyId := "b2", type := EventType.wake, timestamp := 2700000 }

/-- A one-event local cache whose only `_id` is `"a"`. -/
def cexCache : List EventRecord :=
  [{ _id := some "a", babyId := "b1", type := EventType.feed, timestamp := 0 }]

/-! ## Profile registry (`BabyProfile`, `listBabies`, `updateLocalBaby`,
`deleteBabyById`, `getCurrentBabyId`, `syncBabies`) -/

inductive Gender where
  | boy | girl
deriving DecidableEq

inductive Role where
  | owner | member
deriving DecidableEq

/-- The `creatorInfo` display record of a profile. -/
structure CreatorInfo where
  nickName : String
  avatarUrl : String
deriving DecidableEq

/-- `BabyProfile` from storage.ts.  Fields the raw stored data may lack are
`Option`s (`none` models an absent/undefined property). -/
structure BabyProfile where
  _id : Option String := none
  _openid : Option String := none
  id : String
  name : Option String := none
  avatarUrl : Option String := none
  gender : Option Gender := none
  birthday : Option String := none
  role : Option Role := none
  creatorInfo : Option CreatorInfo := none
  isDeleted : Option Bool := none
deriving DecidableEq

/-- The entry `listBabies` pushes for one raw entry: cleaned id, display
defaults (`b.name || '未命名宝宝'`, `b.avatarUrl || ''`), `b.role || 'owner'`;
`_id` and `isDeleted` are not copied into the normalized entry. -/
def lbNorm (b : BabyProfile) : BabyProfile :=
  { id := jsTrim b.id
    name := some (jsOrS b.name "未命名宝宝")
    avatarUrl := some (jsOrS b.avatarUrl "")
    gender := b.gender
    birthday := b.birthday
    role := some (b.role.getD Role.owner)
    _openid := b._openid
    creatorInfo := b.creatorInfo }

/-- The `raw.forEach` loop of `listBabies` with its `seen` set: skip an
entry whose trimmed id is empty or already seen, otherwise push the
normalized entry and record the id. -/
def lbGo (seen : List String) : List BabyProfile → List BabyProfile
  | [] => []
  | b :: rest =>
    if jsTrim b.id = "" then lbGo seen rest
    else if jsTrim b.id ∈ seen then lbGo seen rest
    else lbNorm b :: lbGo (jsTrim b.id :: seen) rest

/-- `listBabies()` over the raw stored list (a non-array stored value reads
as the empty list).  No placeholder entry is created for an empty result —
the default-baby branch is commented out in the source. -/
def listBabies (raw : List BabyProfile) : List BabyProfile :=
  lbGo [] raw

/-- Reference function written from the spec's words: first-wins
deduplication on the cleaned id with display normalization — used to state
that `listBabies` refines it. -/
def specListBabies : List BabyProfile → List BabyProfile
  | [] => []
  | b :: rest =>
    if jsTrim b.id = "" then specListBabies rest
    else lbNorm b :: specListBabies (rest.filter (fun c => jsTrim c.id != jsTrim b.id))
termination_by l => l.length
decreasing_by
  all_goals simp_wf
  all_goals have := List.length_filter_le (fun c => jsTrim c.id != jsTrim b.id) rest
  all_goals omega

/-- The local key-value store as the registry sees it: the raw `babies`
list and the persisted current-selection pointer (`""` = no pointer
stored, which is what `wx.getStorageSync` yields for a missing key). -/
structure LocalState where
  babies : List BabyProfile
  currentBabyId : String
deriving DecidableEq

/-- `saveBabies(babies)`. -/
def saveBabies (l : List BabyProfile) (s : LocalState) : LocalState :=
  { s with babies := l }

/-- `setCurrentBabyId(id)`. -/
def setCurrentBabyId (id : String) (s : LocalState) : LocalState :=
  { s with currentBabyId := id }

/-- `getCurrentBabyId()`: the stored pointer if truthy; otherwise fall back
to the first listed subject (persisting that choice) or `""` when the list
is empty.  Returns the id together with the possibly-updated store. -/
def getCurrentBabyId (s : LocalState) : String × LocalState :=
  if s.currentBabyId ≠ "" then (s.currentBabyId, s)
  else
    match (listBabies s.babies).head? with
    | some b => (b.id, setCurrentBabyId b.id s)
    | none => ("", s)

/-- The in-place merge of `updateLocalBaby` when the id already exists:
`{...list[idx], ...baby, role: existingRole}` followed by the explicit
`if (baby.role) list[idx].role = baby.role` override.  A `none` field of
the incoming record models an absent property (kept from the old entry). -/
def mergeBaby (old u : BabyProfile) : BabyProfile :=
  { _id := u._id <|> old._id
    _openid := u._openid <|> old._openid
    id := u.id
    name := u.name <|> old.name
    avatarUrl := u.avatarUrl <|> old.avatarUrl
    gender := u.gender <|> old.gender
    birthday := u.birthday <|> old.birthday
    role := some (u.role.getD (old.role.getD Role.owner))
    creatorInfo := u.creatorInfo <|> old.creatorInfo
    isDeleted := u.isDeleted <|> old.isDeleted }

/-- `updateLocalBaby(baby)`: update the first entry with a matching id
(keeping the local role unless the incoming record carries one), or push
the new entry with `role: baby.role || 'member'`. -/
def updateLocalBaby (u : BabyProfile) (s : LocalState) : LocalState :=
  let list := listBabies s.babies
  if list.any (fun b => b.id == u.id) then
    saveBabies (replaceFirst (fun b => b.id == u.id) (fun old => mergeBaby old u) list) s
  else
    saveBabies (list ++ [{ u with role := some (u.role.getD Role.member) }]) s

/-- `deleteBabyById(id)`: filter the listed babies, save, and when the
deleted id was the current selection move the pointer to
`filtered[0]?.id || 'default'`. -/
def deleteBabyById (id : String) (s : LocalState) : LocalState :=
  let filtered := (listBabies s.babies).filter (fun b => b.id != id)
  let s1 := saveBabies filtered s
  let res := getCurrentBabyId s1
  if res.1 = id then
    setCurrentBabyId (jsOrS (filtered.head?.map (fun b => b.id)) "default") res.2
  else res.2

/-- `syncBabies()` with the remote `babies` collection reachable.  `cloud`
is the collection (document key = profile id, stamped `_openid`), `caller`
the current user's openid that the `'{openid}'` filter resolves to.  The
member fetches of step 2 run as parallel tasks whose local updates are
serialized here in list order (they are per-id independent); a fetch of a
missing document rejects and is handled as a local delete. -/
def syncBabies (caller : String) (cloud : List BabyProfile) (s : LocalState) : LocalState :=
  let babies := listBabies s.babies
  let cloudMine := cloud.filter (fun d => d._openid == some caller)
  let s1 := cloudMine.foldl
    (fun st b =>
      if b.isDeleted.getD false then st
      else updateLocalBaby { b with role := some Role.owner } st) s
  let localOwners := babies.filter (fun b => b.role == some Role.owner)
  let s2 := localOwners.foldl
    (fun st lb =>
      match cloudMine.find? (fun c => c.id == lb.id) with
      | none => deleteBabyById lb.id st
      | some c => if c.isDeleted.getD false then deleteBabyById lb.id st else st) s1
  let members := (listBabies s2.babies).filter (fun b => b.role == some Role.member)
  members.foldl
    (fun st mb =>
      match cloud.find? (fun c => c.id == mb.id) with
      | none => deleteBabyById mb.id st
      | some d => if d.isDeleted.getD false then deleteBabyById mb.id st else updateLocalBaby d st) s2

/-- "Every normalized entry with this id has role member": the role-integrity
invariant tracked through a reconciliation pass. -/
def InvMember (x : String) (s : LocalState) : Prop :=
  ∀ b ∈ listBabies s.babies, b.id = x → b.role = some Role.member

/-- Local state with a single member-role subject `"b1"` selected. -/
def cexLocalMember : LocalState :=
  { babies := [{ id := "b1", name := some "A", role := some Role.member }]
    currentBabyId := "b1" }

/-- A remote `babies` document for `"b1"` created by openid `"me"`. -/
def cexCloudOwnedDoc : BabyProfile :=
  { _id := some "b1", _openid := some "me", id := "b1", name := some "A" }

/-- Local state with one owner subject `"b1"` that is the selection. -/
def cexLocalOwner : LocalState :=
  { babies := [{ id := "b1", name := some "A", role := some Role.owner }]
    currentBabyId := "b1" }

/-- A two-subject local state, `"b1"` selected. -/
def witLocalTwo : LocalState :=
  { babies := [{ id := "b1", name := some "A", role := some Role.owner },
               { id := "b2", name := some "B", role := some Role.owner }]
    currentBabyId := "b1" }

/-- A raw stored list with a duplicate and an empty id. -/
def cexRawBabies : List BabyProfile :=
  [{ id := "b1", name := some "A" },
   { id := "" },
   { id := "b1", name := some "B" },
   { id := "b2" }]

/-- Local member state plus an unrelated remote doc, for the C6 witness. -/
def witCloudOther : List BabyProfile :=
  [{ _id := some "b9", _openid := some "me", id := "b9", name := some "Z" }]

/-! ## Sharing protocol (`createInvitation`, `confirmJoinFamily`) -/

inductive InvStatus where
  | active | used | expired
deriving DecidableEq

/-- `InvitationCode` from storage.ts (plus the `createdAt` stamp the `add`
writes). -/
structure InvitationCode where
  code : String
  babyId : String
  expiresAt : Int
  status : InvStatus
  createdAt : Int
deriving DecidableEq

/-- The `userInfo` payload of a join request. -/
structure UserInfo where
  nickName : String
  avatarUrl : String
deriving DecidableEq

inductive JoinStatus where
  | pending | approved | rejected
deriving DecidableEq

/-- A `join_requests` document: the fields `confirmJoinFamily` writes, plus
the `_openid` the platform stamps with the caller's identity. -/
structure JoinRequestDoc where
  babyId : String
  userInfo : UserInfo
  status : JoinStatus
  _openid : Option String
  createdAt : Int
  updatedAt : Int
deriving DecidableEq

/-- The remote document store as the sharing protocol sees it. -/
structure CloudState where
  invitations : List InvitationCode
  babies : List BabyProfile
  joinRequests : List JoinRequestDoc
deriving DecidableEq

/-- `createInvitation(babyId)` evaluated at time `now` with the generated
6-digit `code`: stores `{code, babyId, expiresAt: now + 30*60*1000,
status: 'active', createdAt: now}` and returns the code. -/
def createInvitation (babyId code : String) (now : Int) (db : CloudState) :
    CloudState × String :=
  ({ db with invitations := db.invitations ++
      [{ code := code, babyId := babyId, expiresAt := now + 30 * 60 * 1000,
         status := InvStatus.active, createdAt := now }] }, code)

/-- The invitation-validation query of `confirmJoinFamily`:
`where({code, status: 'active', expiresAt: gt(Date.now())})`. -/
def redeemableInvitations (db : CloudState) (code : String) (now : Int) :
    List InvitationCode :=
  db.invitations.filter
    (fun inv => inv.code == code && inv.status == InvStatus.active && decide (now < inv.expiresAt))

/-- The result record of `confirmJoinFamily`. -/
structure ConfirmResult where
  success : Bool
  message : String
  baby : Option BabyProfile
deriving DecidableEq

/-- `confirmJoinFamily(code, userInfo)` evaluated at time `now` by the user
with openid `caller` (which the platform stamps onto inserted documents).
The existing-membership query filters `join_requests` by `babyId` only —
the `_openid` condition in the source is commented out, and the required
all-users-read-write permission on the collection applies no implicit
per-user filter. -/
def confirmJoinFamily (code : String) (ui : UserInfo) (caller : String) (now : Int)
    (db : CloudState) : ConfirmResult × CloudState :=
  match (redeemableInvitations db code now).head? with
  | none => ({ success := false, message := "邀请码无效或已过期", baby := none }, db)
  | some inv =>
    match db.babies.find? (fun b => b.id == inv.babyId) with
    | none => ({ success := false, message := "宝宝信息不存在", baby := none }, db)
    | some baby =>
      if 0 < (db.joinRequests.filter (fun r => r.babyId == inv.babyId)).length then
        ({ success := true, message := "您已加入该家庭", baby := some baby }, db)
      else
        ({ success := true, message := "加入家庭成功", baby := some baby },
         { db with joinRequests := db.joinRequests ++
            [{ babyId := inv.babyId, userInfo := ui, status := JoinStatus.approved,
               _openid := some caller, createdAt := now, updatedAt := now }] })

/-- A cloud baby document joinable through the test invitation. -/
def cexInvBaby : BabyProfile :=
  { _id := some "b1", _openid := some "owner1", id := "b1", name := some "A" }

/-- An active invitation for `"b1"` expiring at t = 30 min. -/
def cexInv : InvitationCode :=
  { code := "111111", babyId := "b1", expiresAt := 1800000,
    status := InvStatus.active, createdAt := 0 }

/-- Cloud state with one active invitation, one baby, no join records. -/
def cexDb : CloudState :=
  { invitations := [cexInv], babies := [cexInvBaby], joinRequests := [] }

/-- The display info of the first and second joining user. -/
def ui1 : UserInfo := { nickName := "U1", avatarUrl := "" }

def ui2 : UserInfo := { nickName := "U2", avatarUrl := "" }

/-- The cloud state after user `"u1"` has redeemed the invitation. -/
def cexDbJoined : CloudState := (confirmJoinFamily "111111" ui1 "u1" 100 cexDb).2

end BabyTracker

namespace BabyTracker

/-! ## Aggregation lemmas -/

theorem aggregateStep_addSummary (s t : StatsSummary) (e : EventRecord) :
    aggregateStep (addSummary s t) e = addSummary s (aggregateStep t e) := by
  cases h : e.type <;> simp [aggregateStep, addSummary, h] <;> omega

theorem foldl_aggregateStep_add (l : List EventRecord) (s t : StatsSummary) :
    l.foldl aggregateStep (addSummary s t) = addSummary s (l.foldl aggregateStep t) := by
  induction l generalizing t with
  | nil => rfl
  | cons e l ih => simp [List.foldl_cons, aggregateStep_addSummary, ih]

theorem addSummary_init (s : StatsSummary) (k : String) :
    addSummary s (initSummary k) = s := by
  cases s; simp [addSummary, initSummary]

/-- C5: `aggregateDaily` is a homomorphism from list concatenation to
field-wise summary addition: aggregating `A ++ B` equals the field-wise sum
of the two aggregates (the `dateKey`, shared by both, is unchanged). -/
theorem aggregateDaily_append (A B : List EventRecord) (k : String) :
    aggregateDaily (A ++ B) k = addSummary (aggregateDaily A k) (aggregateDaily B k) := by
  have h := foldl_aggregateStep_add B (List.foldl aggregateStep (initSummary k) A) (initSummary k)
  rw [addSummary_init] at h
  simpa [aggregateDaily, List.foldl_append] using h

theorem aggregateDaily_cons (e : EventRecord) (l : List EventRecord) (k : String) :
    aggregateDaily (e :: l) k = addSummary (aggregateStep (initSummary k) e) (aggregateDaily l k) := by
  have h := foldl_aggregateStep_add l (aggregateStep (initSummary k) e) (initSummary k)
  rw [addSummary_init] at h
  simpa [aggregateDaily] using h

theorem agg_feedCount (evs : List EventRecord) (k : String) :
    (aggregateDaily evs k).feedCount = ((evs.filter (fun e => e.type == EventType.feed)).length : Int) := by
  induction evs with
  | nil => simp [aggregateDaily, initSummary]
  | cons e l ih =>
    rw [aggregateDaily_cons]
    cases h : e.type <;>
      simp [aggregateStep, addSummary, initSummary, List.filter_cons, h, ih] <;> omega

theorem agg_feedMl (evs : List EventRecord) (k : String) :
    (aggregateDaily evs k).feedMl = ((evs.filter (fun e => e.type == EventType.feed)).map (fun e => e.quantity.getD 0)).sum := by
  induction evs with
  | nil => simp [aggregateDaily, initSummary]
  | cons e l ih =>
    rw [aggregateDaily_cons]
    cases h : e.type <;>
      simp [aggregateStep, addSummary, initSummary, List.filter_cons, h, ih] <;> omega

theorem agg_drinkCount (evs : List EventRecord) (k : String) :
    (aggregateDaily evs k).drinkCount = ((evs.filter (fun e => e.type == EventType.drink)).length : Int) := by
  induction evs with
  | nil => simp [aggregateDaily, initSummary]
  | cons e l ih =>
    rw [aggregateDaily_cons]
    cases h : e.type <;>
      simp [aggregateStep, addSummary, initSummary, List.filter_cons, h, ih] <;> omega

theorem agg_drinkMl (evs : List EventRecord) (k : String) :
    (aggregateDaily evs k).drinkMl = ((evs.filter (fun e => e.type == EventType.drink)).map (fun e => e.quantity.getD 0)).sum := by
  induction evs with
  | nil => simp [aggregateDaily, initSummary]
  | cons e l ih =>
    rw [aggregateDaily_cons]
    cases h : e.type <;>
      simp [aggregateStep, addSummary, initSummary, List.filter_cons, h, ih] <;> omega

theorem agg_peeCount (evs : List EventRecord) (k : String) :
    (aggregateDaily evs k).peeCount = ((evs.filter (fun e => e.type == EventType.pee)).length : Int) := by
  induction evs with
  | nil => simp [aggregateDaily, initSummary]
  | cons e l ih =>
    rw [aggregateDaily_cons]
    cases h : e.type <;>
      simp [aggregateStep, addSummary, initSummary, List.filter_cons, h, ih] <;> omega

theorem agg_poopCount (evs : List EventRecord) (k : String) :
    (aggregateDaily evs k).poopCount = ((evs.filter (fun e => e.type == EventType.poop)).length : Int) := by
  induction evs with
  | nil => simp [aggregateDaily, initSummary]
  | cons e l ih =>
    rw [aggregateDaily_cons]
    cases h : e.type <;>
      simp [aggregateStep, addSummary, initSummary, List.filter_cons, h, ih] <;> omega

theorem agg_sleepSessions (evs : List EventRecord) (k : String) :
    (aggregateDaily evs k).sleepSessions = ((evs.filter (fun e => e.type == EventType.sleep)).length : Int) := by
  induction evs with
  | nil => simp [aggregateDaily, initSummary]
  | cons e l ih =>
    rw [aggregateDaily_cons]
    cases h : e.type <;>
      simp [aggregateStep, addSummary, initSummary, List.filter_cons, h, ih] <;> omega

theorem agg_sleepMinutes (evs : List EventRecord) (k : String) :
    (aggregateDaily evs k).sleepMinutes = ((evs.filter (fun e => e.type == EventType.sleep)).map effSleepMinutes).sum := by
  induction evs with
  | nil => simp [aggregateDaily, initSummary]
  | cons e l ih =>
    rw [aggregateDaily_cons]
    cases h : e.type <;>
      simp [aggregateStep, addSummary, initSummary, List.filter_cons, h, ih] <;> omega

/-- C4: `aggregateDaily` counts feed/drink events and sums their quantities
(a missing quantity contributes 0), counts pee/poop events, counts sleep
events as sessions and sums their effective durations, where an event whose
duration fields are missing contributes 0 and an unparsable (`NaN`-coercing)
`durationMinutes` contributes 0 — so the total is an integer, never `NaN` —
and wake events contribute to no field (no count/total formula mentions
them). -/
theorem aggregateDaily_counts (evs : List EventRecord) (k : String) :
    (aggregateDaily evs k).feedCount = ((evs.filter (fun e => e.type == EventType.feed)).length : Int) ∧
    (aggregateDaily evs k).feedMl = ((evs.filter (fun e => e.type == EventType.feed)).map (fun e => e.quantity.getD 0)).sum ∧
    (aggregateDaily evs k).drinkCount = ((evs.filter (fun e => e.type == EventType.drink)).length : Int) ∧
    (aggregateDaily evs k).drinkMl = ((evs.filter (fun e => e.type == EventType.drink)).map (fun e => e.quantity.getD 0)).sum ∧
    (aggregateDaily evs k).peeCount = ((evs.filter (fun e => e.type == EventType.pee)).length : Int) ∧
    (aggregateDaily evs k).poopCount = ((evs.filter (fun e => e.type == EventType.poop)).length : Int) ∧
    (aggregateDaily evs k).sleepSessions = ((evs.filter (fun e => e.type == EventType.sleep)).length : Int) ∧
    (aggregateDaily evs k).sleepMinutes = ((evs.filter (fun e => e.type == EventType.sleep)).map effSleepMinutes).sum ∧
    (∀ e : EventRecord, e.durationMinutes = none → e.durationLegacy = none → effSleepMinutes e = 0) ∧
    (∀ e : EventRecord, e.durationMinutes = some JsVal.bad → effSleepMinutes e = 0) := by
  refine ⟨agg_feedCount evs k, agg_feedMl evs k, agg_drinkCount evs k, agg_drinkMl evs k,
    agg_peeCount evs k, agg_poopCount evs k, agg_sleepSessions evs k, agg_sleepMinutes evs k,
    ?_, ?_⟩
  · intro e h1 h2
    simp [effSleepMinutes, h1, h2, jsOrVal, jsToNum]
  · intro e h1
    simp [effSleepMinutes, h1, jsOrVal, jsTruthy, jsToNum]

/-- Witness for C4 at concrete inputs. -/
theorem aggregateDaily_counts_witness :
    (aggregateDaily [] "2024-01-01").feedCount = 0 ∧
    effSleepMinutes ⟨none, "b1", EventType.sleep, 0, none, none, none, none⟩ = 0 := by
  have h := aggregateDaily_counts [] "2024-01-01"
  exact ⟨h.1.trans (by decide), h.2.2.2.2.2.2.2.2.1 _ rfl rfl⟩

theorem aggregateStep_dateKey (s : StatsSummary) (e : EventRecord) :
    (aggregateStep s e).dateKey = s.dateKey := by
  cases h : e.type <;> simp [aggregateStep, h]

theorem foldl_aggregateStep_dateKey (l : List EventRecord) (s : StatsSummary) :
    (l.foldl aggregateStep s).dateKey = s.dateKey := by
  induction l generalizing s with
  | nil => rfl
  | cons e l ih => simp [List.foldl_cons, ih, aggregateStep_dateKey]

theorem aggregateStep_setKey (s : StatsSummary) (k' : String) (e : EventRecord) :
    aggregateStep { s with dateKey := k' } e = { aggregateStep s e with dateKey := k' } := by
  cases h : e.type <;> simp [aggregateStep, h]

theorem foldl_aggregateStep_setKey (l : List EventRecord) (s : StatsSummary) (k' : String) :
    l.foldl aggregateStep { s with dateKey := k' } = { l.foldl aggregateStep s with dateKey := k' } := by
  induction l generalizing s with
  | nil => rfl
  | cons e l ih => simp [List.foldl_cons, aggregateStep_setKey, ih]

theorem aggregateStep_retime (s : StatsSummary) (e : EventRecord) (t : Int) :
    aggregateStep s { e with timestamp := t } = aggregateStep s e := by
  cases h : e.type <;> simp [aggregateStep, effSleepMinutes, h]

/-- C10: `aggregateDaily` performs no date filtering: the `dateKey` argument
is copied verbatim into the result and has no effect on any count or total
(aggregating under a different key changes only the `dateKey` field), and
arbitrarily reassigning every event's timestamp leaves the whole summary
unchanged — every input event is counted regardless of its timestamp. -/
theorem aggregateDaily_ignores_dates (evs : List EventRecord) (k k' : String)
    (g : EventRecord → Int) :
    (aggregateDaily evs k).dateKey = k ∧
    aggregateDaily evs k' = { aggregateDaily evs k with dateKey := k' } ∧
    aggregateDaily (evs.map (fun e => { e with timestamp := g e })) k = aggregateDaily evs k := by
  refine ⟨foldl_aggregateStep_dateKey evs (initSummary k), ?_, ?_⟩
  · have h : initSummary k' = { initSummary k with dateKey := k' } := rfl
    rw [aggregateDaily, h, foldl_aggregateStep_setKey]
    rfl
  · rw [aggregateDaily, aggregateDaily, List.foldl_map]
    exact List.foldl_ext _ _ _ (fun s e _ => aggregateStep_retime s e (g e))

/-! ## Event deletion lemmas -/

theorem filter_eq_self_of_length {α : Type} (p : α → Bool) (l : List α)
    (h : (l.filter p).length = l.length) : l.filter p = l := by
  induction l with
  | nil => rfl
  | cons a l ih =>
    by_cases hp : p a
    · simp only [List.filter_cons, hp, if_pos, List.length_cons] at h ⊢
      exact congrArg (a :: ·) (ih (by omega))
    · exfalso
      simp only [List.filter_cons, hp, List.length_cons] at h
      have := List.length_filter_le p l
      simp at h
      omega

/-- C8 amended: once the remote delete has succeeded, `deleteEvent` always
triggers the change notification for the subject — whether or not a cached
event matched — and the resulting cache is exactly the input filtered by
`_id`; in particular when no cached event matches the id the cache is
unchanged (only the redundant storage write is skipped). -/
theorem deleteEvent_spec (babyId targetId : String) (cache : List EventRecord) :
    deleteEvent babyId targetId cache =
      (cache.filter (fun e => e._id != some targetId), true) ∧
    ((∀ e ∈ cache, e._id ≠ some targetId) →
      (deleteEvent babyId targetId cache).1 = cache) := by
  have hfilter : ∀ h : (cache.filter (fun e => e._id != some targetId)).length = cache.length,
      cache.filter (fun e => e._id != some targetId) = cache :=
    fun h => filter_eq_self_of_length _ _ h
  constructor
  · unfold deleteEvent
    by_cases h : (cache.filter (fun e => e._id != some targetId)).length ≠ cache.length
    · simp [h]
    · push_neg at h
      simp [h, hfilter h]
  · intro h
    have : cache.filter (fun e => e._id != some targetId) = cache := by
      apply List.filter_eq_self.mpr
      intro e he
      simpa using h e he
    unfold deleteEvent
    simp [this]

/-- Witness for C8's amended theorem at a concrete cache with no matching
id. -/
theorem deleteEvent_spec_witness :
    (∀ e ∈ cexCache, e._id ≠ some "zzz") ∧
    (deleteEvent "b1" "zzz" cexCache).1 = cexCache :=
  ⟨by decide, (deleteEvent_spec "b1" "zzz" cexCache).2 (by decide)⟩

/-- C8 counterexample: with a cache containing only `_id = "a"`, deleting
id `"zzz"` removes nothing and leaves the cache unchanged, yet the
notification is still triggered — refuting the claim that a notification is
delivered only if an event was actually removed. -/
theorem deleteEvent_cex :
    (deleteEvent "b1" "zzz" cexCache).1 = cexCache ∧
    (deleteEvent "b1" "zzz" cexCache).2 = true := by
  decide

/-! ## Sleep/wake pairing lemmas -/

theorem mostRecent_eq_none {l : List EventRecord} : mostRecent l = none ↔ l = [] := by
  cases l with
  | nil => simp [mostRecent]
  | cons e l =>
    simp only [mostRecent]
    cases hl : mostRecent l with
    | none => simp
    | some m =>
      by_cases h : e.timestamp < m.timestamp <;> simp [h]

theorem mostRecent_mem {l : List EventRecord} {m : EventRecord}
    (h : mostRecent l = some m) : m ∈ l := by
  induction l with
  | nil => simp [mostRecent] at h
  | cons e l ih =>
    simp only [mostRecent] at h
    split at h
    · simp at h
      simp [h]
    · rename_i m' hl
      split at h
      · simp at h
        subst h
        exact List.mem_cons_of_mem _ (ih hl)
      · simp at h
        simp [h]

theorem mostRecent_max {l : List EventRecord} {m : EventRecord}
    (h : mostRecent l = some m) : ∀ e ∈ l, e.timestamp ≤ m.timestamp := by
  induction l generalizing m with
  | nil => simp
  | cons e l ih =>
    intro x hx
    simp only [mostRecent] at h
    split at h
    · rename_i hl
      simp at h
      subst h
      rcases List.mem_cons.mp hx with hx | hx
      · simp [hx]
      · rw [mostRecent_eq_none.mp hl] at hx
        simp at hx
    · rename_i m' hl
      split at h
      · rename_i hc
        simp at h
        subst h
        rcases List.mem_cons.mp hx with hx | hx
        · subst hx; omega
        · exact ih hl x hx
      · rename_i hc
        simp at h
        subst h
        rcases List.mem_cons.mp hx with hx | hx
        · subst hx; omega
        · exact le_trans (ih hl x hx) (by omega)

/-- C3 amended: `linkSleepAndWake` selects the most recent sleep event in
the 24-hour window *regardless of its pairing state*; that event is updated
(via `updateEvent`, duration = rounded minute difference) only when its own
duration is unset or zero and the rounded difference is positive; when the
most recent in-window sleep is already paired the call is a no-op — even if
earlier unpaired in-window sleeps exist — and when the window holds no
sleep at all (remotely or in the local cache) the call is a no-op. -/
theorem linkSleepAndWake_spec (w : EventRecord) (cloud localCache : List EventRecord)
    (hw : w.type = EventType.wake) :
    (∀ s, mostRecent (cloud.filter (inSleepWindow w.babyId (w.timestamp - 24 * 60 * 60 * 1000) w.timestamp)) = some s →
      s ∈ cloud ∧
      inSleepWindow w.babyId (w.timestamp - 24 * 60 * 60 * 1000) w.timestamp s = true ∧
      (∀ e ∈ cloud, inSleepWindow w.babyId (w.timestamp - 24 * 60 * 60 * 1000) w.timestamp e = true →
        e.timestamp ≤ s.timestamp)) ∧
    (∀ s, mostRecent (cloud.filter (inSleepWindow w.babyId (w.timestamp - 24 * 60 * 60 * 1000) w.timestamp)) = some s →
      sleepUnpaired s = false →
      linkSleepAndWake w cloud localCache = (cloud, localCache)) ∧
    (∀ s, mostRecent (cloud.filter (inSleepWindow w.babyId (w.timestamp - 24 * 60 * 60 * 1000) w.timestamp)) = some s →
      sleepUnpaired s = true → 0 < jsRoundMin (w.timestamp - s.timestamp) →
      linkSleepAndWake w cloud localCache =
        updateEvent { s with durationMinutes := some (JsVal.num (jsRoundMin (w.timestamp - s.timestamp))) }
          cloud localCache) ∧
    (∀ s, mostRecent (cloud.filter (inSleepWindow w.babyId (w.timestamp - 24 * 60 * 60 * 1000) w.timestamp)) = some s →
      sleepUnpaired s = true → jsRoundMin (w.timestamp - s.timestamp) ≤ 0 →
      linkSleepAndWake w cloud localCache = (cloud, localCache)) ∧
    (mostRecent (cloud.filter (inSleepWindow w.babyId (w.timestamp - 24 * 60 * 60 * 1000) w.timestamp)) = none →
      (∀ e ∈ localCache, inSleepWindow w.babyId (w.timestamp - 24 * 60 * 60 * 1000) w.timestamp e = false) →
      linkSleepAndWake w cloud localCache = (cloud, localCache)) := by
  refine ⟨?_, ?_, ?_, ?_, ?_⟩
  · intro s hs
    have hmem := mostRecent_mem hs
    have hf := List.mem_filter.mp hmem
    refine ⟨hf.1, hf.2, ?_⟩
    intro e he hpe
    exact mostRecent_max hs e (List.mem_filter.mpr ⟨he, hpe⟩)
  · intro s hs hp
    norm_num at hs
    simp [linkSleepAndWake, hw, hs, hp]
  · intro s hs hp hd
    norm_num at hs
    simp [linkSleepAndWake, hw, hs, hp, hd]
  · intro s hs hp hd
    norm_num at hs
    have hd' : ¬ (0 < jsRoundMin (w.timestamp - s.timestamp)) := by omega
    simp [linkSleepAndWake, hw, hs, hp, hd']
  · intro hs hl
    norm_num at hs hl
    have hfind : localCache.find? (inSleepWindow w.babyId (w.timestamp - 86400000) w.timestamp) = none := by
      apply List.find?_eq_none.mpr
      intro x hx
      simp [hl x hx]
    have hfilter : localCache.filter (inSleepWindow w.babyId (w.timestamp - 86400000) w.timestamp) = [] := by
      apply List.filter_eq_nil.mpr
      intro x hx
      simp [hl x hx]
    simp [linkSleepAndWake, hw, hs, findLastSleepLocal, hfind, hfilter, mostRecent]

/-- Witness for the amended pairing theorem: the spec's own scenario —
sleep at `t0`, wake at `t0 + 45min`, no duration pre-set — ends with the
sleep event updated to 45 minutes. -/
theorem linkSleepAndWake_spec_witness :
    witWake.type = EventType.wake ∧
    linkSleepAndWake witWake [witSleep] [] =
      updateEvent { witSleep with durationMinutes := some (JsVal.num 45) } [witSleep] [] := by
  refine ⟨rfl, ?_⟩
  have h := (linkSleepAndWake_spec witWake [witSleep] [] rfl).2.2.1 witSleep
    (by decide) (by decide) (by decide)
  have e45 : jsRoundMin (witWake.timestamp - witSleep.timestamp) = 45 := by decide
  rw [e45] at h
  exact h

/-! ## Trim lemmas -/

theorem dropWhile_idem {α : Type} (p : α → Bool) (l : List α) :
    (l.dropWhile p).dropWhile p = l.dropWhile p := by
  induction l with
  | nil => rfl
  | cons a l ih => by_cases h : p a <;> simp [List.dropWhile_cons, h, ih]

theorem dropWhile_head_false {α : Type} (p : α → Bool) :
    ∀ (l : List α) (a : α) (t : List α), l.dropWhile p = a :: t → p a = false := by
  intro l
  induction l with
  | nil => intro a t h; simp at h
  | cons c l ih =>
    intro a t h
    by_cases hc : p c
    · rw [List.dropWhile_cons_of_pos hc] at h
      exact ih a t h
    · rw [List.dropWhile_cons_of_neg hc] at h
      obtain ⟨rfl, rfl⟩ := List.cons.injEq .. ▸ h
      simpa using hc

theorem dropWhile_append_last {α : Type} (p : α → Bool) {a : α} (ha : p a = false) :
    ∀ y : List α, ∃ z, (y ++ [a]).dropWhile p = z ++ [a] := by
  intro y
  induction y with
  | nil => exact ⟨[], by simp [List.dropWhile_cons, ha]⟩
  | cons c y ih =>
    by_cases hc : p c
    · obtain ⟨z, hz⟩ := ih
      exact ⟨z, by simpa [List.dropWhile_cons, hc] using hz⟩
    · exact ⟨c :: y, by simp [List.dropWhile_cons, hc]⟩

theorem jsTrim_idem (s : String) : jsTrim (jsTrim s) = jsTrim s := by
  unfold jsTrim stripWs
  congr 1
  have hA : (((s.data.dropWhile Char.isWhitespace).reverse.dropWhile Char.isWhitespace).reverse).dropWhile Char.isWhitespace =
      ((s.data.dropWhile Char.isWhitespace).reverse.dropWhile Char.isWhitespace).reverse := by
    cases hd : s.data.dropWhile Char.isWhitespace with
    | nil => simp
    | cons a t =>
      have hpa : Char.isWhitespace a = false := dropWhile_head_false _ _ _ _ hd
      obtain ⟨z, hz⟩ := dropWhile_append_last _ hpa t.reverse
      rw [List.reverse_cons, hz, List.reverse_append]
      simp [List.dropWhile_cons, hpa]
  rw [hA, List.reverse_reverse, dropWhile_idem]

/-! ## Registry lemmas -/

theorem mem_lbGo {seen : List String} {l : List BabyProfile} {b : BabyProfile}
    (h : b ∈ lbGo seen l) :
    ∃ a ∈ l, b = lbNorm a ∧ jsTrim a.id ≠ "" ∧ jsTrim a.id ∉ seen := by
  induction l generalizing seen with
  | nil => simp [lbGo] at h
  | cons a l ih =>
    simp only [lbGo] at h
    by_cases h1 : jsTrim a.id = ""
    · rw [if_pos h1] at h
      obtain ⟨c, hc, rest⟩ := ih h
      exact ⟨c, List.mem_cons_of_mem _ hc, rest⟩
    · rw [if_neg h1] at h
      by_cases h2 : jsTrim a.id ∈ seen
      · rw [if_pos h2] at h
        obtain ⟨c, hc, rest⟩ := ih h
        exact ⟨c, List.mem_cons_of_mem _ hc, rest⟩
      · rw [if_neg h2] at h
        rcases List.mem_cons.mp h with hb | hb
        · exact ⟨a, List.mem_cons_self _ _, hb, h1, h2⟩
        · obtain ⟨c, hc, hbc, hne, hns⟩ := ih hb
          exact ⟨c, List.mem_cons_of_mem _ hc, hbc, hne,
            fun hmem => hns (List.mem_cons_of_mem _ hmem)⟩

theorem listBabies_mem {raw : List BabyProfile} {b : BabyProfile}
    (h : b ∈ listBabies raw) : ∃ a ∈ raw, b = lbNorm a ∧ jsTrim a.id ≠ "" := by
  obtain ⟨a, ha, hb, hne, _⟩ := mem_lbGo h
  exact ⟨a, ha, hb, hne⟩

theorem listBabies_id_ne_empty {raw : List BabyProfile} {b : BabyProfile}
    (h : b ∈ listBabies raw) : b.id ≠ "" := by
  obtain ⟨a, _, rfl, hne⟩ := listBabies_mem h
  simpa [lbNorm] using hne

theorem listBabies_id_trim {raw : List BabyProfile} {b : BabyProfile}
    (h : b ∈ listBabies raw) : jsTrim b.id = b.id := by
  obtain ⟨a, _, rfl, _⟩ := listBabies_mem h
  simpa [lbNorm] using jsTrim_idem a.id

theorem lbGo_nodup (l : List BabyProfile) :
    ∀ seen : List String,
      ((lbGo seen l).map (fun b => b.id)).Nodup ∧ ∀ b ∈ lbGo seen l, b.id ∉ seen := by
  induction l with
  | nil => intro seen; simp [lbGo]
  | cons a l ih =>
    intro seen
    by_cases h1 : jsTrim a.id = ""
    · simpa [lbGo, h1] using ih seen
    · by_cases h2 : jsTrim a.id ∈ seen
      · simpa [lbGo, h1, h2] using ih seen
      · have ihs := ih (jsTrim a.id :: seen)
        constructor
        · simp only [lbGo, if_neg h1, if_neg h2, List.map_cons]
          refine List.nodup_cons.mpr ⟨?_, ihs.1⟩
          intro hmem
          obtain ⟨c, hc, hce⟩ := List.mem_map.mp hmem
          have hns := ihs.2 c hc
          rw [hce] at hns
          exact hns (by simp [lbNorm])
        · intro b hb
          simp only [lbGo, if_neg h1, if_neg h2] at hb
          rcases List.mem_cons.mp hb with hb | hb
          · subst hb; simpa [lbNorm] using h2
          · exact fun hmem => ihs.2 b hb (List.mem_cons_of_mem _ hmem)

theorem listBabies_nodup (raw : List BabyProfile) :
    ((listBabies raw).map (fun b => b.id)).Nodup :=
  (lbGo_nodup raw []).1

theorem lbGo_all_invalid (l : List BabyProfile) (seen : List String)
    (h : ∀ b ∈ l, jsTrim b.id = "") : lbGo seen l = [] := by
  induction l with
  | nil => rfl
  | cons a l ih =>
    have ha := h a (List.mem_cons_self _ _)
    simp only [lbGo, if_pos ha]
    exact ih (fun b hb => h b (List.mem_cons_of_mem _ hb))

theorem lbGo_eq_spec (l : List BabyProfile) :
    ∀ seen : List String, "" ∉ seen →
      lbGo seen l = specListBabies (l.filter (fun c => decide (jsTrim c.id ∉ seen))) := by
  induction l with
  | nil => intro seen h; simp [lbGo, specListBabies]
  | cons a l ih =>
    intro seen h
    by_cases h1 : jsTrim a.id = ""
    · have hpassP : jsTrim a.id ∉ seen := by rw [h1]; exact h
      have hfc : (a :: l).filter (fun c => decide (jsTrim c.id ∉ seen)) =
          a :: l.filter (fun c => decide (jsTrim c.id ∉ seen)) := by
        simp [List.filter_cons, hpassP]
      rw [hfc]
      rw [specListBabies]
      rw [if_pos h1]
      simp only [lbGo, if_pos h1]
      exact ih seen h
    · by_cases h2 : jsTrim a.id ∈ seen
      · have hfc : (a :: l).filter (fun c => decide (jsTrim c.id ∉ seen)) =
            l.filter (fun c => decide (jsTrim c.id ∉ seen)) := by
          simp [List.filter_cons, h2]
        rw [hfc]
        simp only [lbGo, if_neg h1, if_pos h2]
        exact ih seen h
      · have hfc : (a :: l).filter (fun c => decide (jsTrim c.id ∉ seen)) =
            a :: l.filter (fun c => decide (jsTrim c.id ∉ seen)) := by
          simp [List.filter_cons, h2]
        rw [hfc]
        rw [specListBabies]
        rw [if_neg h1]
        simp only [lbGo, if_neg h1, if_neg h2]
        congr 1
        have hff : (l.filter (fun c => decide (jsTrim c.id ∉ seen))).filter
              (fun c => jsTrim c.id != jsTrim a.id) =
            l.filter (fun c => decide (jsTrim c.id ∉ jsTrim a.id :: seen)) := by
          rw [List.filter_filter]
          apply List.filter_congr
          intro c _
          by_cases hxt : jsTrim c.id = jsTrim a.id <;>
            by_cases hxs : jsTrim c.id ∈ seen <;> simp [hxt, hxs]
        rw [hff]
        exact ih (jsTrim a.id :: seen) (by simp [h, Ne.symm h1])

theorem listBabies_eq_spec (raw : List BabyProfile) :
    listBabies raw = specListBabies raw := by
  have h := lbGo_eq_spec raw [] (by simp)
  simpa [listBabies] using h

/-- C7: `listBabies` drops entries whose trimmed id is empty, deduplicates
on the id keeping the first occurrence, and normalizes missing display
fields — it equals the spec-side first-wins reference function, its output
ids are pairwise distinct and non-empty, and when no valid entry remains it
returns the empty list (no placeholder subject is created). -/
theorem listBabies_clean (raw : List BabyProfile) :
    listBabies raw = specListBabies raw ∧
    ((listBabies raw).map (fun b => b.id)).Nodup ∧
    (∀ b ∈ listBabies raw, b.id ≠ "") ∧
    ((∀ b ∈ raw, jsTrim b.id = "") → listBabies raw = []) :=
  ⟨listBabies_eq_spec raw, listBabies_nodup raw,
    fun _ hb => listBabies_id_ne_empty hb,
    fun h => lbGo_all_invalid raw [] h⟩

/-- Witness for C7 on a raw list with a duplicate id and an empty id, and
on a whitespace-only id for the empty-state clause. -/
theorem listBabies_clean_witness :
    ((listBabies cexRawBabies).map (fun b => b.id)).Nodup ∧
    (∀ b ∈ listBabies cexRawBabies, b.id ≠ "") ∧
    listBabies [({ id := " " } : BabyProfile)] = [] := by
  have h := listBabies_clean cexRawBabies
  have h2 := listBabies_clean [({ id := " " } : BabyProfile)]
  exact ⟨h.2.1, h.2.2.1, h2.2.2.2 (by decide)⟩

theorem lbNorm_member_of_mem {x : String} {raw : List BabyProfile}
    (h : ∀ b ∈ listBabies raw, b.id = x → b.role = some Role.member)
    {a : BabyProfile} (ha : a ∈ listBabies raw) (hax : (lbNorm a).id = x) :
    (lbNorm a).role = some Role.member := by
  have htr := listBabies_id_trim ha
  have hax' : a.id = x := by
    rw [← htr]
    simpa [lbNorm] using hax
  have hr := h a ha hax'
  simp [lbNorm, hr]

theorem mem_replaceFirst {α : Type} {f : α → Bool} {g : α → α} {l : List α} {a : α}
    (h : a ∈ replaceFirst f g l) : a ∈ l ∨ ∃ c ∈ l, f c = true ∧ a = g c := by
  induction l with
  | nil => simp [replaceFirst] at h
  | cons b l ih =>
    simp only [replaceFirst] at h
    by_cases hb : f b
    · rw [if_pos hb] at h
      rcases List.mem_cons.mp h with h | h
      · exact Or.inr ⟨b, List.mem_cons_self _ _, hb, h⟩
      · exact Or.inl (List.mem_cons_of_mem _ h)
    · rw [if_neg hb] at h
      rcases List.mem_cons.mp h with h | h
      · exact Or.inl (h ▸ List.mem_cons_self _ _)
      · rcases ih h with h' | ⟨c, hc, hfc, hgc⟩
        · exact Or.inl (List.mem_cons_of_mem _ h')
        · exact Or.inr ⟨c, List.mem_cons_of_mem _ hc, hfc, hgc⟩

theorem inv_updateLocalBaby {x : String} {u : BabyProfile} {s : LocalState}
    (hu : u.role = none ∨ jsTrim u.id ≠ x)
    (h : InvMember x s) : InvMember x (updateLocalBaby u s) := by
  intro b hb hbx
  simp only [updateLocalBaby, saveBabies] at hb
  by_cases hex : (listBabies s.babies).any (fun b => b.id == u.id)
  · rw [if_pos hex] at hb
    simp only [] at hb
    obtain ⟨a, ha, rfl, hne⟩ := listBabies_mem hb
    rcases mem_replaceFirst ha with ha' | ⟨c, hc, hfc, rfl⟩
    · exact lbNorm_member_of_mem h ha' hbx
    · rcases hu with hu | hu
      · have hcid : c.id = u.id := by simpa using hfc
        have htr : jsTrim c.id = c.id := listBabies_id_trim hc
        have hux : jsTrim u.id = c.id := by rw [← hcid, htr]
        have hcx : c.id = x := by
          rw [← hux]
          simpa [lbNorm, mergeBaby] using hbx
        have hcr := h c hc hcx
        simp [lbNorm, mergeBaby, hu, hcr]
      · exact absurd (by simpa [lbNorm, mergeBaby] using hbx) hu
  · rw [if_neg hex] at hb
    simp only [] at hb
    obtain ⟨a, ha, rfl, hne⟩ := listBabies_mem hb
    rcases List.mem_append.mp ha with ha' | ha'
    · exact lbNorm_member_of_mem h ha' hbx
    · have ha'' : a = { u with role := some (u.role.getD Role.member) } := by simpa using ha'
      subst ha''
      rcases hu with hu | hu
      · simp [lbNorm, hu]
      · exact absurd (by simpa [lbNorm] using hbx) hu

theorem getCurrentBabyId_babies (s : LocalState) :
    (getCurrentBabyId s).2.babies = s.babies := by
  unfold getCurrentBabyId
  by_cases h : s.currentBabyId ≠ ""
  · rw [if_pos h]
  · rw [if_neg h]
    cases hh : (listBabies s.babies).head? <;> simp [setCurrentBabyId]

theorem deleteBabyById_babies (y : String) (s : LocalState) :
    (deleteBabyById y s).babies = (listBabies s.babies).filter (fun b => b.id != y) := by
  unfold deleteBabyById
  by_cases hc :
      (getCurrentBabyId (saveBabies ((listBabies s.babies).filter (fun b => b.id != y)) s)).1 = y
  · rw [if_pos hc]
    simp [setCurrentBabyId, getCurrentBabyId_babies, saveBabies]
  · rw [if_neg hc]
    simp [getCurrentBabyId_babies, saveBabies]

theorem inv_deleteBabyById {x y : String} {s : LocalState}
    (h : InvMember x s) : InvMember x (deleteBabyById y s) := by
  intro b hb hbx
  rw [deleteBabyById_babies] at hb
  obtain ⟨a, ha, rfl, hne⟩ := listBabies_mem hb
  exact lbNorm_member_of_mem h (List.mem_of_mem_filter ha) hbx

theorem foldl_pres {α σ : Type} (P : σ → Prop) (f : σ → α → σ) (l : List α)
    (hstep : ∀ st a, a ∈ l → P st → P (f st a)) :
    ∀ st, P st → P (l.foldl f st) := by
  induction l with
  | nil => intro st h; simpa using h
  | cons a l ih =>
    intro st h
    simp only [List.foldl_cons]
    exact ih (fun st b hb => hstep st b (List.mem_cons_of_mem _ hb)) _
      (hstep st a (List.mem_cons_self _ _) h)

/-- C6 amended: during `syncBabies`, a subject locally stored with role
`member` either keeps role `member` or is removed locally, PROVIDED its id
is not among the caller's own (same `_openid`) cloud documents and the
remote payloads carry no explicit `role` field; the owned-babies step
forcibly resets `role` to `owner` for any document stamped with the
caller's own openid, which is the only way a locally-known member can be
flipped. -/
theorem syncBabies_member_role (caller x : String) (cloud : List BabyProfile) (s : LocalState)
    (hown : ∀ d ∈ cloud, d._openid = some caller → jsTrim d.id ≠ x)
    (hrole : ∀ d ∈ cloud, d.role = none)
    (hmem : InvMember x s) :
    InvMember x (syncBabies caller cloud s) := by
  have hstep1 : ∀ (st : LocalState) (d : BabyProfile),
      d ∈ cloud.filter (fun d => d._openid == some caller) → InvMember x st →
      InvMember x (if d.isDeleted.getD false then st
        else updateLocalBaby { d with role := some Role.owner } st) := by
    intro st d hd hP
    by_cases hdel : d.isDeleted.getD false
    · rw [if_pos hdel]; exact hP
    · rw [if_neg hdel]
      apply inv_updateLocalBaby _ hP
      right
      have hdc := List.mem_filter.mp hd
      have hne := hown d hdc.1 (by simpa using hdc.2)
      simpa using hne
  have hstep2 : ∀ (st : LocalState) (lb : BabyProfile), InvMember x st →
      InvMember x (match (cloud.filter (fun d => d._openid == some caller)).find? (fun c => c.id == lb.id) with
        | none => deleteBabyById lb.id st
        | some c => if c.isDeleted.getD false then deleteBabyById lb.id st else st) := by
    intro st lb hP
    cases hfind : (cloud.filter (fun d => d._openid == some caller)).find? (fun c => c.id == lb.id) with
    | none => exact inv_deleteBabyById hP
    | some c =>
      dsimp only
      by_cases hdel : c.isDeleted.getD false
      · rw [if_pos hdel]; exact inv_deleteBabyById hP
      · rw [if_neg hdel]; exact hP
  have hstep3 : ∀ (st : LocalState) (mb : BabyProfile), InvMember x st →
      InvMember x (match cloud.find? (fun c => c.id == mb.id) with
        | none => deleteBabyById mb.id st
        | some d => if d.isDeleted.getD false then deleteBabyById mb.id st else updateLocalBaby d st) := by
    intro st mb hP
    cases hfind : cloud.find? (fun c => c.id == mb.id) with
    | none => exact inv_deleteBabyById hP
    | some d =>
      dsimp only
      by_cases hdel : d.isDeleted.getD false
      · rw [if_pos hdel]; exact inv_deleteBabyById hP
      · rw [if_neg hdel]
        apply inv_updateLocalBaby _ hP
        left
        exact hrole d (List.mem_of_find?_eq_some hfind)
  simp only [syncBabies]
  exact foldl_pres (InvMember x) _ _ (fun st mb _ hP => hstep3 st mb hP) _
    (foldl_pres (InvMember x) _ _ (fun st lb _ hP => hstep2 st lb hP) _
      (foldl_pres (InvMember x) _ _ hstep1 _ hmem))

/-- Witness for C6's amended theorem: a local member subject survives a
pass whose remote collection holds only an unrelated caller-owned
document. -/
theorem syncBabies_member_role_witness :
    (∀ d ∈ witCloudOther, d._openid = some "me" → jsTrim d.id ≠ "b1") ∧
    (∀ d ∈ witCloudOther, d.role = none) ∧
    InvMember "b1" (syncBabies "me" witCloudOther cexLocalMember) := by
  have hmem : InvMember "b1" cexLocalMember := by
    show ∀ b ∈ listBabies cexLocalMember.babies, b.id = "b1" → b.role = some Role.member
    decide
  exact ⟨by decide, by decide,
    syncBabies_member_role "me" "b1" witCloudOther cexLocalMember (by decide) (by decide) hmem⟩

/-- C6 counterexample: a subject locally stored as `member` whose cloud
document carries the caller's own `_openid` is flipped to `owner` by the
owned-babies step of `syncBabies` (it is neither kept as `member` nor
removed), refuting the unconditional claim. -/
theorem syncBabies_cex :
    (∀ b ∈ listBabies cexLocalMember.babies, b.id = "b1" → b.role = some Role.member) ∧
    (∃ b ∈ listBabies (syncBabies "me" [cexCloudOwnedDoc] cexLocalMember).babies,
      b.id = "b1" ∧ b.role = some Role.owner) := by
  decide

/-- C9 amended: when the deleted id was the stored current selection, the
pointer afterwards is the first remaining subject's id, or the literal
string `"default"` when no subject remains — not an empty sentinel — and
`getCurrentBabyId` then returns exactly that stored pointer (in particular
`"default"`, not the empty string, on an empty registry). -/
theorem deleteBabyById_pointer (s : LocalState) (id : String)
    (h1 : s.currentBabyId = id) (h2 : id ≠ "") :
    (deleteBabyById id s).currentBabyId =
      jsOrS ((((listBabies s.babies).filter (fun b => b.id != id)).head?).map (fun b => b.id)) "default" ∧
    (getCurrentBabyId (deleteBabyById id s)).1 = (deleteBabyById id s).currentBabyId := by
  have key : deleteBabyById id s =
      setCurrentBabyId
        (jsOrS ((((listBabies s.babies).filter (fun b => b.id != id)).head?).map (fun b => b.id)) "default")
        (saveBabies ((listBabies s.babies).filter (fun b => b.id != id)) s) := by
    simp [deleteBabyById, getCurrentBabyId, saveBabies, h1, h2]
  rw [key]
  refine ⟨rfl, ?_⟩
  have hnext : jsOrS ((((listBabies s.babies).filter (fun b => b.id != id)).head?).map (fun b => b.id)) "default" ≠ "" := by
    cases hh : ((listBabies s.babies).filter (fun b => b.id != id)).head? with
    | none => simp [jsOrS, hh]
    | some b =>
      have hb : b ∈ (listBabies s.babies).filter (fun b => b.id != id) :=
        List.mem_of_mem_head? hh
      have hne : b.id ≠ "" := listBabies_id_ne_empty (List.mem_of_mem_filter hb)
      simp [jsOrS, hh, hne]
  simp only [getCurrentBabyId, setCurrentBabyId, saveBabies]
  rw [if_pos hnext]

/-- Witness for C9's amended theorem on a two-subject state. -/
theorem deleteBabyById_pointer_witness :
    witLocalTwo.currentBabyId = "b1" ∧ ("b1" : String) ≠ "" ∧
    (deleteBabyById "b1" witLocalTwo).currentBabyId =
      jsOrS ((((listBabies witLocalTwo.babies).filter (fun b => b.id != "b1")).head?).map (fun b => b.id)) "default" ∧
    (getCurrentBabyId (deleteBabyById "b1" witLocalTwo)).1 =
      (deleteBabyById "b1" witLocalTwo).currentBabyId := by
  have h := deleteBabyById_pointer witLocalTwo "b1" rfl (by decide)
  exact ⟨rfl, by decide, h.1, h.2⟩

/-- C9 counterexample: deleting the only subject, which is the current
selection, leaves the registry empty but sets the pointer to the string
`"default"`; `getCurrentBabyId` then returns `"default"`, not the empty
string the claim requires. -/
theorem deleteBabyById_cex :
    listBabies (deleteBabyById "b1" cexLocalOwner).babies = [] ∧
    (deleteBabyById "b1" cexLocalOwner).currentBabyId = "default" ∧
    (getCurrentBabyId (deleteBabyById "b1" cexLocalOwner)).1 = "default" ∧
    ("default" : String) ≠ "" := by
  decide

/-- C3 counterexample: `cexCloudEvents` holds an in-window sleep with no
duration (`cexSleepUnpaired`), yet `linkSleepAndWake` on `cexWake` changes
nothing, because the *most recent* in-window sleep (`cexSleepPaired`)
already has a duration — refuting the claim that the search targets the
most recent sleep *with duration unset or zero* and that the call is a
no-op only when no such candidate exists. -/
theorem linkSleepAndWake_cex :
    cexSleepUnpaired ∈ cexCloudEvents ∧
    inSleepWindow cexWake.babyId (cexWake.timestamp - 24 * 60 * 60 * 1000) cexWake.timestamp cexSleepUnpaired = true ∧
    sleepUnpaired cexSleepUnpaired = true ∧
    cexSleepUnpaired.durationMinutes = none ∧
    linkSleepAndWake cexWake cexCloudEvents [] = (cexCloudEvents, []) := by
  decide

/-! ## Sharing protocol lemmas -/

/-- C1: an invitation created at time `t` is stored with status `active`
and `expiresAt = t + 30min`; the validation query of `confirmJoinFamily`
still matches it at `expiresAt − 1ms`; at `expiresAt + 1ms` (the code being
otherwise fresh) `confirmJoinFamily` returns the typed failure
`{success: false}` and inserts no JoinRecord, and the same typed failure
with no insertion results whenever no active unexpired invitation matches
at all. -/
theorem createInvitation_expiry (db : CloudState) (babyId code : String) (t : Int)
    (ui : UserInfo) (caller : String)
    (hcode : ∀ inv ∈ db.invitations, inv.code ≠ code) :
    (∃ inv ∈ ((createInvitation babyId code t db).1).invitations,
      inv.code = code ∧ inv.status = InvStatus.active ∧ inv.expiresAt = t + 30 * 60 * 1000) ∧
    redeemableInvitations (createInvitation babyId code t db).1 code (t + 30 * 60 * 1000 - 1) ≠ [] ∧
    ((confirmJoinFamily code ui caller (t + 30 * 60 * 1000 + 1) (createInvitation babyId code t db).1).1.success = false ∧
      ((confirmJoinFamily code ui caller (t + 30 * 60 * 1000 + 1) (createInvitation babyId code t db).1).2).joinRequests =
        ((createInvitation babyId code t db).1).joinRequests) ∧
    (∀ (db₀ : CloudState) (now₀ : Int), redeemableInvitations db₀ code now₀ = [] →
      (confirmJoinFamily code ui caller now₀ db₀).1.success = false ∧
      ((confirmJoinFamily code ui caller now₀ db₀).2).joinRequests = db₀.joinRequests) := by
  refine ⟨?_, ?_, ?_, ?_⟩
  · refine ⟨⟨code, babyId, t + 30 * 60 * 1000, InvStatus.active, t⟩, ?_, rfl, rfl, rfl⟩
    simp [createInvitation]
  · have hlt : (t + 30 * 60 * 1000 - 1 : Int) < t + 30 * 60 * 1000 := by omega
    simp [redeemableInvitations, createInvitation, List.filter_append, hlt]
  · have hempty : redeemableInvitations (createInvitation babyId code t db).1 code
        (t + 30 * 60 * 1000 + 1) = [] := by
      apply List.filter_eq_nil.mpr
      intro inv hmem
      simp only [createInvitation] at hmem
      rcases List.mem_append.mp hmem with hmem | hmem
      · simp [hcode inv hmem]
      · have : inv = ⟨code, babyId, t + 30 * 60 * 1000, InvStatus.active, t⟩ := by
          simpa using hmem
        subst this
        simp
    norm_num at hempty
    simp [confirmJoinFamily, hempty]
  · intro db₀ now₀ hempty
    simp [confirmJoinFamily, hempty]

/-- Witness for C1 starting from the empty cloud state at `t = 0`. -/
theorem createInvitation_expiry_witness :
    (∀ inv ∈ (⟨[], [], []⟩ : CloudState).invitations, inv.code ≠ "123456") ∧
    redeemableInvitations (createInvitation "b1" "123456" 0 ⟨[], [], []⟩).1 "123456"
      (0 + 30 * 60 * 1000 - 1) ≠ [] ∧
    (confirmJoinFamily "123456" ui1 "u1" (0 + 30 * 60 * 1000 + 1)
      (createInvitation "b1" "123456" 0 ⟨[], [], []⟩).1).1.success = false := by
  have h := createInvitation_expiry ⟨[], [], []⟩ "b1" "123456" 0 ui1 "u1" (by decide)
  exact ⟨by decide, h.2.1, h.2.2.1.1⟩

/-- C2 amended: on a successful invitation lookup and subject fetch,
`confirmJoinFamily` checks for an existing JoinRecord *for the subject
only* (the query filters on `babyId` alone, regardless of which user
created the record): if any record exists it returns idempotent success
without inserting, and otherwise it inserts exactly one JoinRecord with
status `approved` stamped with the caller's openid. -/
theorem confirmJoinFamily_membership (db : CloudState) (code : String) (ui : UserInfo)
    (caller : String) (now : Int) (inv : InvitationCode) (baby : BabyProfile)
    (h1 : (redeemableInvitations db code now).head? = some inv)
    (h2 : db.babies.find? (fun b => b.id == inv.babyId) = some baby) :
    (confirmJoinFamily code ui caller now db).1.success = true ∧
    (confirmJoinFamily code ui caller now db).1.baby = some baby ∧
    (0 < (db.joinRequests.filter (fun r => r.babyId == inv.babyId)).length →
      (confirmJoinFamily code ui caller now db).2 = db) ∧
    ((db.joinRequests.filter (fun r => r.babyId == inv.babyId)).length = 0 →
      ((confirmJoinFamily code ui caller now db).2).joinRequests =
        db.joinRequests ++
          [⟨inv.babyId, ui, JoinStatus.approved, some caller, now, now⟩]) := by
  by_cases hex : 0 < (db.joinRequests.filter (fun r => r.babyId == inv.babyId)).length
  · refine ⟨?_, ?_, fun _ => ?_, fun h0 => absurd h0 (by omega)⟩ <;>
      simp [confirmJoinFamily, h1, h2, hex]
  · refine ⟨?_, ?_, fun h0 => absurd h0 hex, fun _ => ?_⟩ <;>
      simp [confirmJoinFamily, h1, h2, hex]

/-- Witness for C2's amended theorem: the first user's redemption inserts
an approved JoinRecord carrying their openid. -/
theorem confirmJoinFamily_membership_witness :
    ((redeemableInvitations cexDb "111111" 100).head? = some cexInv) ∧
    (cexDb.babies.find? (fun b => b.id == cexInv.babyId) = some cexInvBaby) ∧
    (confirmJoinFamily "111111" ui1 "u1" 100 cexDb).1.success = true ∧
    ((confirmJoinFamily "111111" ui1 "u1" 100 cexDb).2).joinRequests =
      cexDb.joinRequests ++
        [⟨cexInv.babyId, ui1, JoinStatus.approved, some "u1", 100, 100⟩] := by
  have h := confirmJoinFamily_membership cexDb "111111" ui1 "u1" 100 cexInv cexInvBaby
    (by decide) (by decide)
  exact ⟨by decide, by decide, h.1, h.2.2.2 (by decide)⟩

/-- C2 counterexample: after user `"u1"` redeems the (still valid) code for
subject `"b1"`, a second distinct user `"u2"` redeeming the same code gets
`success = true` but the store is unchanged — no JoinRecord carrying
`"u2"`'s openid is ever inserted, because the existing-record query filters
by `babyId` only.  This refutes both the claimed per-(subject, user) check
and the claim that two distinct users each end up with their own
JoinRecord. -/
theorem confirmJoinFamily_cex :
    ((confirmJoinFamily "111111" ui1 "u1" 100 cexDb).2.joinRequests.length = 1) ∧
    (∃ r ∈ cexDbJoined.joinRequests, r._openid = some "u1") ∧
    (confirmJoinFamily "111111" ui2 "u2" 200 cexDbJoined).1.success = true ∧
    (confirmJoinFamily "111111" ui2 "u2" 200 cexDbJoined).2 = cexDbJoined ∧
    (∀ r ∈ (confirmJoinFamily "111111" ui2 "u2" 200 cexDbJoined).2.joinRequests,
      r._openid ≠ some "u2") := by
  decide

end BabyTracker
